import Mathlib

/-!
Shallow embedding of the genetic job-scheduling engine in `src/Ai_OEL.py`.

The Python module draws randomness from the global `random` module.  We model
the random source as a stream of natural numbers (`RandStream`): each primitive draw
consumes the head of the stream (an exhausted stream keeps yielding `0`).
`random.randint a b` returns an arbitrary value of `[a, b]` determined by the
next stream element, and raises `ValueError` when the range is empty, exactly
as CPython's `randrange` does.  `random.random()` returns `k / 2^53` for some
`0 ≤ k < 2^53`, which is precisely CPython's generator, so we model it as a
rational of that shape.  Fallible Python operations (empty `min`/`max`,
out-of-range indexing, division by zero, empty `randint` ranges) are embedded
as `Except String` values carrying the corresponding Python error message.
-/

abbrev RandStream := List Nat

/-- Consume one raw draw from the random stream (an exhausted stream yields 0). -/
def drawNat : RandStream → Nat × RandStream
  | [] => (0, [])
  | x :: xs => (x, xs)

/-- Embedding of Python `random.randint(a, b)`: an arbitrary integer of `[a, b]`
chosen by the next stream element; raises `ValueError` when `b < a`. -/
def randint (a b : Int) (rng : RandStream) : Except String (Int × RandStream) :=
  if b < a then .error "ValueError: empty range for randrange" else
    let p := drawNat rng
    .ok (a + (p.1 : Int) % (b - a + 1), p.2)

/-- Embedding of Python `random.random()`: a rational `k / 2^53` with
`0 ≤ k < 2^53`, chosen by the next stream element. -/
def random01 (rng : RandStream) : ℚ × RandStream :=
  let p := drawNat rng
  (((p.1 % 2 ^ 53 : Nat) : ℚ) / 2 ^ 53, p.2)

/-- Embedding of the comprehension
`[random.randint(0, num_machines - 1) for _ in range(num_tasks)]` in
`initialize_population` (src/Ai_OEL.py line 10).  `randint 0 _` only yields
non-negative values, so storing the gene as a `Nat` via `toNat` is faithful. -/
def init_individual (num_machines : Nat) : Nat → RandStream → Except String (List Nat × RandStream)
  | 0, rng => .ok ([], rng)
  | num_tasks + 1, rng =>
    match randint 0 ((num_machines : Int) - 1) rng with
    | .error e => .error e
    | .ok (g, rng1) =>
      match init_individual num_machines num_tasks rng1 with
      | .error e => .error e
      | .ok (rest, rng2) => .ok (g.toNat :: rest, rng2)

/-- Embedding of Python `initialize_population` (src/Ai_OEL.py lines 6-12):
build `job_schedule_pool_size` individuals in order, each a list of
`num_tasks` uniformly drawn machine indices. -/
def init_population (job_schedule_pool_size num_tasks num_machines : Nat) :
    RandStream → Except String (List (List Nat) × RandStream)
  | rng =>
    match job_schedule_pool_size with
    | 0 => .ok ([], rng)
    | pool + 1 =>
      match init_individual num_machines num_tasks rng with
      | .error e => .error e
      | .ok (individual, rng1) =>
        match init_population pool num_tasks num_machines rng1 with
        | .error e => .error e
        | .ok (population, rng2) => .ok (individual :: population, rng2)

/-- Embedding of Python `max` over a list of ints: `ValueError` on the empty
list, otherwise the left fold of binary `max` over the elements. -/
def listMax : List Int → Option Int
  | [] => none
  | x :: xs => some (xs.foldl max x)

/-- Embedding of Python `min` over a list of ints: `ValueError` on the empty
list, otherwise the left fold of binary `min` over the elements. -/
def listMin : List Int → Option Int
  | [] => none
  | x :: xs => some (xs.foldl min x)

/-- Embedding of the accumulation loop of `fitness_function`
(src/Ai_OEL.py lines 16-18): `machine_times[machine] += task_durations[task]`
for `task, machine in enumerate(individual)`.  Out-of-range indexing raises
`IndexError` as in Python (genes are `Nat`s, so no negative-index wrap can
occur). -/
def fitnessLoop (task_durations : List Int) : Nat → List Nat → List Int → Except String (List Int)
  | _, [], machine_times => .ok machine_times
  | task, machine :: rest, machine_times =>
    match task_durations.get? task, machine_times.get? machine with
    | some d, some t =>
      fitnessLoop task_durations (task + 1) rest (machine_times.set machine (t + d))
    | _, _ => .error "IndexError: list index out of range"

/-- Embedding of Python `fitness_function` (src/Ai_OEL.py lines 14-19):
accumulate per-machine load starting from `[0] * num_machines` and return the
negated maximum load. -/
def fitness_function (individual : List Nat) (task_durations : List Int)
    (num_machines : Nat) : Except String Int :=
  match fitnessLoop task_durations 0 individual (List.replicate num_machines 0) with
  | .error e => .error e
  | .ok machine_times =>
    match listMax machine_times with
    | none => .error "ValueError: max arg is an empty sequence"
    | some mx => .ok (-mx)

/-- Embedding of `itertools.accumulate` used inside `random.choices`:
running partial sums of the weights. -/
def cumSumFrom (acc : ℚ) : List ℚ → List ℚ
  | [] => []
  | w :: ws => (acc + w) :: cumSumFrom (acc + w) ws

/-- Embedding of `bisect.bisect(cum_weights, target, 0, hi)` with
`hi = len(cum_weights) - 1`, as used by `random.choices`: for the
nondecreasing cumulative lists arising there, the insertion point equals the
number of entries `≤ target` among the first `hi` entries. -/
def choiceIndex (cum : List ℚ) (target : ℚ) : Nat :=
  (cum.take (cum.length - 1)).countP (fun c => decide (c ≤ target))

/-- Embedding of Python `random.choices(population, weights, k=2)`
(src/Ai_OEL.py line 25): cumulative weights, a positivity check on their
total (CPython raises `ValueError` when the total is not positive), and two
weighted draws driven by `random.random()`. -/
def choices2 (population : List (List Nat)) (weights : List ℚ) (rng : RandStream) :
    Except String ((List Nat × List Nat) × RandStream) :=
  if population.length ≠ weights.length then
    .error "ValueError: The number of weights does not match the population"
  else
    let cum := cumSumFrom 0 weights
    let total := cum.getLastD 0
    if total ≤ 0 then .error "ValueError: Total of weights must be greater than zero"
    else
      let r1 := random01 rng
      let i1 := choiceIndex cum (r1.1 * total)
      let r2 := random01 r1.2
      let i2 := choiceIndex cum (r2.1 * total)
      match population.get? i1, population.get? i2 with
      | some parent1, some parent2 => .ok ((parent1, parent2), r2.2)
      | _, _ => .error "IndexError: list index out of range"

/-- Embedding of the comprehension
`[fitness / total_fitness for fitness in fitness_scores]` in `selection`
(src/Ai_OEL.py line 24): each element performs a Python division by
`total_fitness`, so the first element raises `ZeroDivisionError` when the
total is zero, while an empty list raises nothing. -/
def selectionProbs (total_fitness : Int) : List Int → Except String (List ℚ)
  | [] => .ok []
  | fitness :: rest =>
    if total_fitness = 0 then .error "ZeroDivisionError: division by zero"
    else
      match selectionProbs total_fitness rest with
      | .error e => .error e
      | .ok ps => .ok (((fitness : ℚ) / (total_fitness : ℚ)) :: ps)

/-- Embedding of Python `selection` (src/Ai_OEL.py lines 21-25): roulette-wheel
weights `fitness / total_fitness`, then `random.choices(..., k=2)`. -/
def selection (population : List (List Nat)) (fitness_scores : List Int) (rng : RandStream) :
    Except String ((List Nat × List Nat) × RandStream) :=
  let total_fitness := fitness_scores.sum
  match selectionProbs total_fitness fitness_scores with
  | .error e => .error e
  | .ok probabilities => choices2 population probabilities rng

/-- Embedding of Python `crossover` (src/Ai_OEL.py lines 27-32):
`point = random.randint(1, len(parent1) - 1)` followed by the two slice
concatenations.  `randint 1 _` only yields positive values, so `toNat` is
faithful. -/
def crossover (parent1 parent2 : List Nat) (rng : RandStream) :
    Except String ((List Nat × List Nat) × RandStream) :=
  match randint 1 ((parent1.length : Int) - 1) rng with
  | .error e => .error e
  | .ok (point, rng1) =>
    let k := point.toNat
    .ok ((parent1.take k ++ parent2.drop k, parent2.take k ++ parent1.drop k), rng1)

/-- Embedding of the per-gene loop of Python `mutate` (src/Ai_OEL.py
lines 36-38): for each position, draw `random.random()`; when it is below the
adjustment probability, redraw the gene with `randint(0, num_machines - 1)`. -/
def mutateLoop (adjustment_probability : ℚ) (num_machines : Nat) :
    List Nat → RandStream → Except String (List Nat × RandStream)
  | [], rng => .ok ([], rng)
  | gene :: rest, rng =>
    let r := random01 rng
    if r.1 < adjustment_probability then
      match randint 0 ((num_machines : Int) - 1) r.2 with
      | .error e => .error e
      | .ok (v, rng2) =>
        match mutateLoop adjustment_probability num_machines rest rng2 with
        | .error e => .error e
        | .ok (rest2, rng3) => .ok (v.toNat :: rest2, rng3)
    else
      match mutateLoop adjustment_probability num_machines rest r.2 with
      | .error e => .error e
      | .ok (rest2, rng3) => .ok (gene :: rest2, rng3)

/-- Embedding of Python `mutate` (src/Ai_OEL.py lines 34-39). -/
def mutate (individual : List Nat) (adjustment_probability : ℚ) (num_machines : Nat)
    (rng : RandStream) : Except String (List Nat × RandStream) :=
  mutateLoop adjustment_probability num_machines individual rng

/-- Embedding of the comprehension
`[fitness_function(individual, task_durations, num_machines) for individual in population]`
(src/Ai_OEL.py lines 48-50): evaluate fitness left to right, propagating the
first raised error. -/
def evalFitness (task_durations : List Int) (num_machines : Nat) :
    List (List Nat) → Except String (List Int)
  | [] => .ok []
  | individual :: rest =>
    match fitness_function individual task_durations num_machines with
    | .error e => .error e
    | .ok f =>
      match evalFitness task_durations num_machines rest with
      | .error e => .error e
      | .ok fs => .ok (f :: fs)

/-- Inner scan of Python `max(iterable, key=f)`: keep the first element whose
key is strictly greater than the current best's key. -/
def maxByKeyAux (key : List Nat → Except String Int) (best : List Nat) (bestK : Int) :
    List (List Nat) → Except String (List Nat)
  | [] => .ok best
  | y :: ys =>
    match key y with
    | .error e => .error e
    | .ok ky =>
      if bestK < ky then maxByKeyAux key y ky ys else maxByKeyAux key best bestK ys

/-- Embedding of Python `max(population, key=...)` (src/Ai_OEL.py line 67):
`ValueError` on an empty population, otherwise the first element attaining
the maximal key. -/
def maxByKey (key : List Nat → Except String Int) :
    List (List Nat) → Except String (List Nat)
  | [] => .error "ValueError: max arg is an empty sequence"
  | x :: xs =>
    match key x with
    | .error e => .error e
    | .ok kx => maxByKeyAux key x kx xs

/-- Embedding of the offspring-production `while` loop
(src/Ai_OEL.py lines 58-63): while the next generation is smaller than the
pool size, select two parents, recombine, mutate both offspring and append
them.  Each pass appends exactly two individuals, so the loop terminates. -/
def buildNextGen (pool : Nat) (population : List (List Nat)) (fitness_scores : List Int)
    (adjustment_probability : ℚ) (num_machines : Nat)
    (next_generation : List (List Nat)) (rng : RandStream) :
    Except String (List (List Nat) × RandStream) :=
  if h : next_generation.length < pool then
    match selection population fitness_scores rng with
    | .error e => .error e
    | .ok ((parent1, parent2), rng1) =>
      match crossover parent1 parent2 rng1 with
      | .error e => .error e
      | .ok ((offspring1, offspring2), rng2) =>
        match mutate offspring1 adjustment_probability num_machines rng2 with
        | .error e => .error e
        | .ok (child1, rng3) =>
          match mutate offspring2 adjustment_probability num_machines rng3 with
          | .error e => .error e
          | .ok (child2, rng4) =>
            buildNextGen pool population fitness_scores adjustment_probability
              num_machines (next_generation ++ [child1, child2]) rng4
  else .ok (next_generation, rng)
termination_by pool - next_generation.length
decreasing_by simp [List.length_append]; omega

/-- Embedding of the generational `for` loop (src/Ai_OEL.py lines 47-65),
recursing on the number of remaining generations: evaluate fitness, record
the generation's best makespan in the trace, stop early when the best
makespan is at most `min(task_durations)` (raising `ValueError` when the
durations are empty, as Python `min` does), otherwise build and install the
next generation truncated to the pool size. -/
def gaLoop (pool : Nat) (task_durations : List Int) (num_machines : Nat)
    (adjustment_probability : ℚ) :
    Nat → Nat → List (List Nat) → List String → RandStream →
    Except String (List String × List (List Nat) × RandStream)
  | 0, _, population, results, rng => .ok (results, population, rng)
  | fuel + 1, generation, population, results, rng =>
    match evalFitness task_durations num_machines population with
    | .error e => .error e
    | .ok fitness_scores =>
      match listMax fitness_scores with
      | none => .error "ValueError: max arg is an empty sequence"
      | some best_fitness =>
        let results2 := results ++
          ["Generation " ++ toString (generation + 1) ++ ": Best Makespan = " ++
            toString (-best_fitness)]
        match listMin task_durations with
        | none => .error "ValueError: min arg is an empty sequence"
        | some smallest =>
          if -best_fitness ≤ smallest then
            .ok (results2 ++ ["\nOptimal scheduling found with minimum makespan!"],
              population, rng)
          else
            match buildNextGen pool population fitness_scores adjustment_probability
                num_machines [] rng with
            | .error e => .error e
            | .ok (next_generation, rng2) =>
              gaLoop pool task_durations num_machines adjustment_probability fuel
                (generation + 1) (next_generation.take pool) results2 rng2

/-- Return value of `genetic_algorithm_job_scheduling`: the textual trace, the
best individual and its makespan (src/Ai_OEL.py line 75). -/
structure GAResult where
  results : List String
  best_individual : List Nat
  best_makespan : Int
deriving DecidableEq

/-- Embedding of Python `genetic_algorithm_job_scheduling`
(src/Ai_OEL.py lines 41-75): create the population, run the generational
loop, then take the first individual of the final population with maximal
fitness, recompute its makespan, and append the schedule listing (1-based
task and machine numbers) and the final makespan line to the trace. -/
def genetic_algorithm_job_scheduling (job_schedule_pool_size : Nat)
    (task_durations : List Int) (num_machines : Nat) (iteration_limit : Nat)
    (adjustment_probability : ℚ) (rng : RandStream) : Except String GAResult :=
  let num_tasks := task_durations.length
  match init_population job_schedule_pool_size num_tasks num_machines rng with
  | .error e => .error e
  | .ok (population, rng1) =>
    match gaLoop job_schedule_pool_size task_durations num_machines
        adjustment_probability iteration_limit 0 population [] rng1 with
    | .error e => .error e
    | .ok (results, final_population, _rng2) =>
      match maxByKey (fun ind => fitness_function ind task_durations num_machines)
          final_population with
      | .error e => .error e
      | .ok best_individual =>
        match fitness_function best_individual task_durations num_machines with
        | .error e => .error e
        | .ok best_fit =>
          let best_makespan := -best_fit
          .ok ⟨results ++ ["\nOptimal Schedule Found:"] ++
              best_individual.enum.map (fun p =>
                "Task " ++ toString (p.1 + 1) ++ " -> Machine " ++ toString (p.2 + 1)) ++
              ["\nMinimum Makespan: " ++ toString best_makespan],
            best_individual, best_makespan⟩

deriving instance DecidableEq for Except

/-! ### Helper lemmas about the embedded list primitives -/

/-- The initial accumulator bounds a left `max` fold from below. -/
theorem le_foldl_max (xs : List Int) : ∀ a : Int, a ≤ xs.foldl max a := by
  induction xs with
  | nil => intro a; exact le_refl a
  | cons x xs ih =>
    intro a
    simp only [List.foldl_cons]
    exact le_trans (le_max_left a x) (ih (max a x))

/-- Every member of the list bounds a left `max` fold from below. -/
theorem mem_le_foldl_max (xs : List Int) : ∀ (a y : Int), y ∈ xs → y ≤ xs.foldl max a := by
  induction xs with
  | nil => intro a y hy; simp at hy
  | cons x xs ih =>
    intro a y hy
    simp only [List.foldl_cons]
    rcases List.mem_cons.mp hy with h | h
    · subst h; exact le_trans (le_max_right a y) (le_foldl_max xs (max a y))
    · exact ih (max a x) y h

/-- `listMax` is an upper bound of the list. -/
theorem listMax_is_ub (l : List Int) (mx : Int) (h : listMax l = some mx) :
    ∀ y ∈ l, y ≤ mx := by
  cases l with
  | nil => simp [listMax] at h
  | cons x xs =>
    simp only [listMax, Option.some.injEq] at h
    subst h
    intro y hy
    rcases List.mem_cons.mp hy with h | h
    · subst h; exact le_foldl_max xs y
    · exact mem_le_foldl_max xs x y h

/-- A list of elements bounded by `c` has sum at most `length * c`. -/
theorem sum_le_length_mul (l : List Int) (c : Int) (h : ∀ y ∈ l, y ≤ c) :
    l.sum ≤ (l.length : Int) * c := by
  induction l with
  | nil => simp
  | cons x xs ih =>
    simp only [List.sum_cons, List.length_cons]
    have h1 : x ≤ c := h x (List.mem_cons_self x xs)
    have h2 : xs.sum ≤ (xs.length : Int) * c := ih (fun y hy => h y (List.mem_cons_of_mem x hy))
    push_cast
    calc x + xs.sum ≤ c + (xs.length : Int) * c := add_le_add h1 h2
    _ = ((xs.length : Int) + 1) * c := by ring

/-- Setting an in-range position changes the sum by the difference at that
position. -/
theorem sum_set_of_lt (l : List Int) : ∀ (j : Nat) (v : Int), j < l.length →
    (l.set j v).sum = l.sum - l.getD j 0 + v := by
  induction l with
  | nil => intro j v h; simp at h
  | cons x xs ih =>
    intro j v h
    cases j with
    | zero => simp [List.getD_cons_zero]; ring
    | succ j =>
      show (x :: xs.set j v).sum = _
      simp only [List.sum_cons, List.getD_cons_succ]
      rw [ih j v (by simpa using Nat.lt_of_succ_lt_succ h)]
      ring

/-- `random.random()` never returns a negative value in the model. -/
theorem random01_nonneg (rng : RandStream) : 0 ≤ (random01 rng).1 := by
  unfold random01
  exact div_nonneg (by positivity) (by positivity)

/-! ### C9 -/

/-- C9: for every individual, machine count and random stream, `mutate` with
adjustment probability `0` returns the individual unchanged (it only advances
the random stream). -/
theorem mutate_zero_probability_identity (individual : List Nat) (num_machines : Nat)
    (rng : RandStream) :
    ∃ rng2, mutate individual 0 num_machines rng = .ok (individual, rng2) := by
  unfold mutate
  induction individual generalizing rng with
  | nil => exact ⟨rng, rfl⟩
  | cons g gs ih =>
    obtain ⟨rng2, ih2⟩ := ih (random01 rng).2
    refine ⟨rng2, ?_⟩
    simp only [mutateLoop]
    rw [if_neg (not_lt.mpr (random01_nonneg rng))]
    rw [ih2]

/-! ### C8 -/

/-- C8 (amended): for parents whose first parent has fewer than two genes,
`crossover` raises `randint`'s empty-range `ValueError` instead of returning
copies of the parents. -/
theorem crossover_short_parents_raise (parent1 parent2 : List Nat) (rng : RandStream)
    (h : parent1.length < 2) :
    crossover parent1 parent2 rng = .error "ValueError: empty range for randrange" := by
  unfold crossover randint
  rw [if_pos (by omega : ((parent1.length : Int) - 1 < 1))]

/-- C8 witness: a concrete one-gene crossover raises the empty-range error. -/
theorem crossover_short_parents_raise_witness :
    crossover [0] [1] [] = .error "ValueError: empty range for randrange" :=
  crossover_short_parents_raise [0] [1] [] (by decide)

/-- C8 counterexample: for the single-gene parents `[0]` and `[1]`, `crossover`
does not return copies of the parents; it raises `randint`'s empty-range
`ValueError` (so no `.ok` result exists at all). -/
theorem crossover_short_parents_counterexample :
    crossover [0] [1] [2] = .error "ValueError: empty range for randrange" := by decide

/-! ### C2 -/

/-- C2 (amended): when the fitness sum over a non-empty score list is zero,
`selection` raises `ZeroDivisionError` from the per-element division by
`total_fitness`; there is no uniform-random fallback. -/
theorem selection_zero_fitness_sum_raises (population : List (List Nat))
    (fitness_scores : List Int) (rng : RandStream)
    (hne : fitness_scores ≠ []) (hsum : fitness_scores.sum = 0) :
    selection population fitness_scores rng = .error "ZeroDivisionError: division by zero" := by
  unfold selection
  obtain ⟨f, rest, rfl⟩ := List.exists_cons_of_ne_nil hne
  rw [hsum]
  simp [selectionProbs]

/-- C2 witness: a concrete all-zero fitness list makes `selection` raise. -/
theorem selection_zero_fitness_sum_raises_witness :
    selection [[0], [1]] [0, 0] [] = .error "ZeroDivisionError: division by zero" :=
  selection_zero_fitness_sum_raises [[0], [1]] [0, 0] [] (by decide) (by decide)

/-- C2 counterexample: with every fitness equal to zero (total fitness zero),
`selection` does not fall back to a uniform choice of two parents; it raises
`ZeroDivisionError`, so no pair of parents is returned. -/
theorem selection_zero_fitness_sum_no_fallback_counterexample :
    selection [[0]] [0] [] = .error "ZeroDivisionError: division by zero" := by decide

/-! ### C3 -/

/-- With zero machines and at least one task, building one individual raises
`randint`'s empty-range `ValueError` (`randint(0, -1)`). -/
theorem init_individual_zero_machines (num_tasks : Nat) (rng : RandStream)
    (h : 1 ≤ num_tasks) :
    init_individual 0 num_tasks rng = .error "ValueError: empty range for randrange" := by
  obtain ⟨k, rfl⟩ : ∃ k, num_tasks = k + 1 := ⟨num_tasks - 1, by omega⟩
  simp only [init_individual, randint]
  norm_num

/-- C3 (amended): with `num_machines = 0`, a non-empty duration vector and a
non-zero pool size, the engine fails with `randint`'s empty-range `ValueError`
raised while building the very first individual of the initial population;
there is no up-front configuration check that rejects `num_machines = 0`
before search work begins. -/
theorem zero_machines_raises_inside_init (job_schedule_pool_size : Nat)
    (task_durations : List Int) (iteration_limit : Nat)
    (adjustment_probability : ℚ) (rng : RandStream)
    (hpool : 1 ≤ job_schedule_pool_size) (htasks : task_durations ≠ []) :
    genetic_algorithm_job_scheduling job_schedule_pool_size task_durations 0 iteration_limit
      adjustment_probability rng = .error "ValueError: empty range for randrange" := by
  obtain ⟨k, rfl⟩ : ∃ k, job_schedule_pool_size = k + 1 :=
    ⟨job_schedule_pool_size - 1, by omega⟩
  have hlen : 1 ≤ task_durations.length := by
    cases task_durations with
    | nil => exact absurd rfl htasks
    | cons d rest => simp
  unfold genetic_algorithm_job_scheduling
  simp only [init_population, init_individual_zero_machines task_durations.length rng hlen]

/-- C3 witness: a concrete zero-machine run raises the empty-range error. -/
theorem zero_machines_raises_inside_init_witness :
    genetic_algorithm_job_scheduling 1 [5] 0 3 0 [] =
      .error "ValueError: empty range for randrange" :=
  zero_machines_raises_inside_init 1 [5] 3 0 [] (by decide) (by decide)

/-- C3 counterexample: for `num_machines = 0` the engine does not signal a
descriptive configuration error before creating the population; the failure
is `randint`'s empty-range `ValueError`, raised from inside
`initialize_population` while the first individual is being drawn. -/
theorem zero_machines_no_config_error_counterexample :
    genetic_algorithm_job_scheduling 2 [7] 0 5 0 [] =
      .error "ValueError: empty range for randrange" := by decide

/-! ### C5 -/

/-- C5: for parents of equal length `L ≥ 2`, `crossover` picks a cut point
`k ∈ [1, L-1]` and returns the two offspring obtained by swapping the tails
at `k`; both offspring have length `L`. -/
theorem crossover_single_point_spec (parent1 parent2 : List Nat) (rng : RandStream)
    (hlen : parent2.length = parent1.length) (h2 : 2 ≤ parent1.length) :
    ∃ k rng2, 1 ≤ k ∧ k ≤ parent1.length - 1 ∧
      crossover parent1 parent2 rng =
        .ok ((parent1.take k ++ parent2.drop k, parent2.take k ++ parent1.drop k), rng2) ∧
      (parent1.take k ++ parent2.drop k).length = parent1.length ∧
      (parent2.take k ++ parent1.drop k).length = parent1.length := by
  have hmod : (0 : Int) < (parent1.length : Int) - 1 - 1 + 1 := by omega
  set r : Int := ((drawNat rng).1 : Int) % ((parent1.length : Int) - 1 - 1 + 1) with hr
  have hlo : 0 ≤ r := Int.emod_nonneg _ (by omega)
  have hhi : r < (parent1.length : Int) - 1 := by
    have := Int.emod_lt_of_pos ((drawNat rng).1 : Int) hmod
    omega
  refine ⟨(1 + r).toNat, (drawNat rng).2, by omega, by omega, ?_, ?_, ?_⟩
  · unfold crossover randint
    rw [if_neg (by omega : ¬ ((parent1.length : Int) - 1 < 1))]
  · simp only [List.length_append, List.length_take, List.length_drop, hlen]
    omega
  · simp only [List.length_append, List.length_take, List.length_drop, hlen]
    omega

/-- C5 witness: a concrete crossover of `[0,1]` and `[1,0]` satisfies the
single-point re-partition property. -/
theorem crossover_single_point_spec_witness :
    ∃ k rng2, 1 ≤ k ∧ k ≤ [0, 1].length - 1 ∧
      crossover [0, 1] [1, 0] [0] =
        .ok (([0, 1].take k ++ [1, 0].drop k, [1, 0].take k ++ [0, 1].drop k), rng2) ∧
      ([0, 1].take k ++ [1, 0].drop k).length = [0, 1].length ∧
      ([1, 0].take k ++ [0, 1].drop k).length = [0, 1].length :=
  crossover_single_point_spec [0, 1] [1, 0] [0] rfl (by decide)

/-! ### C4 -/

/-- With zero tasks every individual of the initial population is the empty
list, and no random draws are consumed. -/
theorem init_population_no_tasks (pool num_machines : Nat) (rng : RandStream) :
    init_population pool 0 num_machines rng = .ok (List.replicate pool [], rng) := by
  induction pool with
  | zero => rfl
  | succ k ih =>
    simp only [init_population, init_individual, ih, List.replicate_succ]

/-- Folding `max` over a list of zeros starting from zero yields zero. -/
theorem foldl_max_zero_replicate (k : Nat) : (List.replicate k (0 : Int)).foldl max 0 = 0 := by
  induction k with
  | zero => rfl
  | succ k ih => simp [List.replicate_succ, List.foldl_cons, ih]

/-- The empty individual has fitness `0` whenever there is at least one
machine. -/
theorem fitness_empty_individual (task_durations : List Int) (num_machines : Nat)
    (hm : 1 ≤ num_machines) :
    fitness_function [] task_durations num_machines = .ok 0 := by
  obtain ⟨j, rfl⟩ : ∃ j, num_machines = j + 1 := ⟨num_machines - 1, by omega⟩
  simp only [fitness_function, fitnessLoop, List.replicate_succ, listMax,
    foldl_max_zero_replicate, neg_zero]

/-- Scanning identical empty individuals never replaces the current best. -/
theorem maxByKeyAux_all_empty (key : List Nat → Except String Int) (hk : key [] = .ok 0) :
    ∀ k, maxByKeyAux key [] 0 (List.replicate k []) = .ok [] := by
  intro k
  induction k with
  | zero => rfl
  | succ k ih =>
    simp only [List.replicate_succ, maxByKeyAux, hk]
    rw [if_neg (lt_irrefl 0)]
    exact ih

/-- C4 (amended): with zero tasks, a non-zero pool, at least one machine and
`iteration_limit = 0`, the engine returns the empty assignment with makespan
`0`. -/
theorem zero_tasks_zero_iterations_trivial_result (pool num_machines : Nat)
    (adjustment_probability : ℚ) (rng : RandStream)
    (hpool : 1 ≤ pool) (hm : 1 ≤ num_machines) :
    genetic_algorithm_job_scheduling pool [] num_machines 0 adjustment_probability rng =
      .ok ⟨["\nOptimal Schedule Found:", "\nMinimum Makespan: 0"], [], 0⟩ := by
  obtain ⟨k, rfl⟩ : ∃ k, pool = k + 1 := ⟨pool - 1, by omega⟩
  unfold genetic_algorithm_job_scheduling
  simp only [List.length_nil, init_population_no_tasks, gaLoop, List.replicate_succ, maxByKey]
  simp only [fitness_empty_individual [] num_machines hm,
    maxByKeyAux_all_empty (fun ind => fitness_function ind [] num_machines)
      (fitness_empty_individual [] num_machines hm) k]
  rfl

/-- C4 witness: the concrete zero-task, zero-iteration run returns the empty
assignment with makespan `0`. -/
theorem zero_tasks_zero_iterations_trivial_result_witness :
    genetic_algorithm_job_scheduling 1 [] 1 0 0 [] =
      .ok ⟨["\nOptimal Schedule Found:", "\nMinimum Makespan: 0"], [], 0⟩ :=
  zero_tasks_zero_iterations_trivial_result 1 1 0 [] (by decide) (by decide)

/-- C4 counterexample: with zero tasks the engine does not always return the
trivial assignment.  With `iteration_limit = 1` it raises `min`'s
empty-sequence `ValueError` in the first generation, and with population size
`0` it raises `max`'s empty-sequence `ValueError` when extracting the final
best individual. -/
theorem zero_tasks_counterexample :
    genetic_algorithm_job_scheduling 2 [] 1 1 0 [] =
      .error "ValueError: min arg is an empty sequence" ∧
    genetic_algorithm_job_scheduling 0 [] 1 0 0 [] =
      .error "ValueError: max arg is an empty sequence" := by
  exact ⟨by decide, by decide⟩

/-! ### C6 -/

/-- The scan of Python `max(..., key=f)` returns the running best or a member
of the remaining list, whose key is maximal among both. -/
theorem maxByKeyAux_spec (key : List Nat → Except String Int) :
    ∀ (l : List (List Nat)) (best : List Nat) (bestK : Int) (b : List Nat),
      key best = .ok bestK → maxByKeyAux key best bestK l = .ok b →
      (b = best ∨ b ∈ l) ∧
      ∃ kb, key b = .ok kb ∧ bestK ≤ kb ∧ ∀ x ∈ l, ∀ kx, key x = .ok kx → kx ≤ kb := by
  intro l
  induction l with
  | nil =>
    intro best bestK b hkey h
    simp only [maxByKeyAux, Except.ok.injEq] at h
    subst h
    exact ⟨Or.inl rfl, bestK, hkey, le_refl bestK, by simp⟩
  | cons y ys ih =>
    intro best bestK b hkey h
    simp only [maxByKeyAux] at h
    cases hky : key y with
    | error e => rw [hky] at h; cases h
    | ok ky =>
      rw [hky] at h
      simp only [] at h
      by_cases hlt : bestK < ky
      · rw [if_pos hlt] at h
        obtain ⟨hmem, kb, hkb, hle, hub⟩ := ih y ky b hky h
        refine ⟨?_, kb, hkb, le_of_lt (lt_of_lt_of_le hlt hle), ?_⟩
        · rcases hmem with rfl | hm
          · exact Or.inr (List.mem_cons_self b ys)
          · exact Or.inr (List.mem_cons_of_mem y hm)
        · intro x hx kx hkx
          rcases List.mem_cons.mp hx with rfl | hm
          · rw [hky] at hkx
            cases hkx
            exact hle
          · exact hub x hm kx hkx
      · rw [if_neg hlt] at h
        obtain ⟨hmem, kb, hkb, hle, hub⟩ := ih best bestK b hkey h
        refine ⟨?_, kb, hkb, hle, ?_⟩
        · rcases hmem with rfl | hm
          · exact Or.inl rfl
          · exact Or.inr (List.mem_cons_of_mem y hm)
        · intro x hx kx hkx
          rcases List.mem_cons.mp hx with rfl | hm
          · rw [hky] at hkx
            cases hkx
            exact le_trans (not_lt.mp hlt) hle
          · exact hub x hm kx hkx

/-- Python `max(l, key=f)` returns a member of `l` whose key is maximal. -/
theorem maxByKey_spec (key : List Nat → Except String Int) (l : List (List Nat)) (b : List Nat)
    (h : maxByKey key l = .ok b) :
    b ∈ l ∧ ∃ kb, key b = .ok kb ∧ ∀ x ∈ l, ∀ kx, key x = .ok kx → kx ≤ kb := by
  cases l with
  | nil => cases h
  | cons x xs =>
    simp only [maxByKey] at h
    cases hkx : key x with
    | error e => rw [hkx] at h; cases h
    | ok kx =>
      rw [hkx] at h
      simp only [] at h
      obtain ⟨hmem, kb, hkb, hle, hub⟩ := maxByKeyAux_spec key xs x kx b hkx h
      refine ⟨?_, kb, hkb, ?_⟩
      · rcases hmem with rfl | hm
        · exact List.mem_cons_self b xs
        · exact List.mem_cons_of_mem x hm
      · intro z hz kz hkz
        rcases List.mem_cons.mp hz with rfl | hm
        · rw [hkx] at hkz
          cases hkz
          exact hle
        · exact hub z hm kz hkz

/-- C6: whenever the engine returns a result, the returned individual is a
member of the final population with minimal makespan (maximal fitness) over
it, and the returned best makespan is the makespan recomputed from the
returned individual. -/
theorem final_population_argmax_returned
    (pool : Nat) (task_durations : List Int) (num_machines iteration_limit : Nat)
    (adjustment_probability : ℚ) (rng rng1 rng2 : RandStream) (r : GAResult)
    (population final_population : List (List Nat)) (trace : List String)
    (hinit : init_population pool task_durations.length num_machines rng =
      .ok (population, rng1))
    (hloop : gaLoop pool task_durations num_machines adjustment_probability iteration_limit 0
      population [] rng1 = .ok (trace, final_population, rng2))
    (hrun : genetic_algorithm_job_scheduling pool task_durations num_machines iteration_limit
      adjustment_probability rng = .ok r) :
    r.best_individual ∈ final_population ∧
    fitness_function r.best_individual task_durations num_machines = .ok (-r.best_makespan) ∧
    ∀ ind ∈ final_population, ∀ f,
      fitness_function ind task_durations num_machines = .ok f → r.best_makespan ≤ -f := by
  unfold genetic_algorithm_job_scheduling at hrun
  simp only [hinit, hloop] at hrun
  cases hb : maxByKey (fun ind => fitness_function ind task_durations num_machines)
      final_population with
  | error e => rw [hb] at hrun; cases hrun
  | ok best =>
    rw [hb] at hrun
    simp only [] at hrun
    cases hf : fitness_function best task_durations num_machines with
    | error e => rw [hf] at hrun; cases hrun
    | ok bf =>
      rw [hf] at hrun
      simp only [Except.ok.injEq] at hrun
      subst hrun
      obtain ⟨hmem, kb, hkb, hub⟩ := maxByKey_spec _ _ _ hb
      have hkb2 : fitness_function best task_durations num_machines = Except.ok kb := hkb
      rw [hf] at hkb2
      injection hkb2 with hbk
      subst hbk
      refine ⟨hmem, ?_, ?_⟩
      · show fitness_function best task_durations num_machines = Except.ok (- -bf)
        rw [neg_neg]
        exact hf
      · intro ind hind f hfind
        have hle : f ≤ bf := hub ind hind f hfind
        show -bf ≤ -f
        omega

/-- C6 witness: a concrete zero-iteration run returns the (unique) member of
the final population, with matching recomputed makespan and minimality. -/
theorem final_population_argmax_returned_witness :
    (GAResult.mk ["\nOptimal Schedule Found:", "Task 1 -> Machine 1", "\nMinimum Makespan: 2"]
        [0] 2).best_individual ∈ [[0]] ∧
    fitness_function (GAResult.mk ["\nOptimal Schedule Found:", "Task 1 -> Machine 1",
        "\nMinimum Makespan: 2"] [0] 2).best_individual [2] 1 =
      .ok (-(GAResult.mk ["\nOptimal Schedule Found:", "Task 1 -> Machine 1",
        "\nMinimum Makespan: 2"] [0] 2).best_makespan) ∧
    ∀ ind ∈ [[0]], ∀ f, fitness_function ind [2] 1 = .ok f →
      (GAResult.mk ["\nOptimal Schedule Found:", "Task 1 -> Machine 1",
        "\nMinimum Makespan: 2"] [0] 2).best_makespan ≤ -f :=
  final_population_argmax_returned 1 [2] 1 0 0 [] [] [] _ [[0]] [[0]] []
    (by decide) (by decide) (by decide)

/-! ### C7 -/

/-- Dropping up to a known position exposes that element as the head. -/
theorem drop_eq_cons_of_get (l : List Int) : ∀ (n : Nat) (d : Int), l.get? n = some d →
    l.drop n = d :: l.drop (n + 1) := by
  induction l with
  | nil => intro n d h; cases h
  | cons x xs ih =>
    intro n d h
    cases n with
    | zero =>
      have h0 : some x = some d := h
      injection h0 with h0
      subst h0
      rfl
    | succ n =>
      have h1 : xs.get? n = some d := h
      simpa using ih n d h1

/-- Invariant of the machine-load accumulation loop of `fitness_function`:
with in-range genes and non-negative durations it succeeds, preserves the
bucket count and non-negativity, adds exactly the consumed durations to the
total load, never decreases a bucket, and ends with each processed task's
bucket at least that task's duration. -/
theorem fitnessLoop_spec (task_durations : List Int)
    (hd : ∀ d ∈ task_durations, 0 ≤ d) :
    ∀ (genes : List Nat) (task : Nat) (times : List Int),
      (∀ g ∈ genes, g < times.length) →
      task + genes.length ≤ task_durations.length →
      (∀ e ∈ times, 0 ≤ e) →
      ∃ times2, fitnessLoop task_durations task genes times = .ok times2 ∧
        times2.length = times.length ∧
        (∀ e ∈ times2, 0 ≤ e) ∧
        times2.sum = times.sum + ((task_durations.drop task).take genes.length).sum ∧
        (∀ j, times.getD j 0 ≤ times2.getD j 0) ∧
        (∀ i g d, genes.get? i = some g → task_durations.get? (task + i) = some d →
          d ≤ times2.getD g 0) := by
  intro genes
  induction genes with
  | nil =>
    intro task times hg hlen hpos
    refine ⟨times, rfl, rfl, hpos, by simp, fun j => le_refl _, ?_⟩
    intro i g d hget
    cases hget
  | cons g gs ih =>
    intro task times hg hlen hpos
    have hglen : g < times.length := hg g (List.mem_cons_self g gs)
    have htlen : task < task_durations.length := by
      simp only [List.length_cons] at hlen
      omega
    obtain ⟨d, hdget⟩ : ∃ d, task_durations.get? task = some d := by
      cases hq : task_durations.get? task with
      | none => exact absurd (List.get?_eq_none.mp hq) (by omega)
      | some d => exact ⟨d, rfl⟩
    obtain ⟨t, htget⟩ : ∃ t, times.get? g = some t := by
      cases hq : times.get? g with
      | none => exact absurd (List.get?_eq_none.mp hq) (by omega)
      | some t => exact ⟨t, rfl⟩
    have hd0 : 0 ≤ d := hd d (List.get?_mem hdget)
    have ht0 : 0 ≤ t := hpos t (List.get?_mem htget)
    have hstep : fitnessLoop task_durations task (g :: gs) times =
        fitnessLoop task_durations (task + 1) gs (times.set g (t + d)) := by
      simp only [fitnessLoop, hdget, htget]
    have hlen1 : (times.set g (t + d)).length = times.length := by simp
    have hpos1 : ∀ e ∈ times.set g (t + d), 0 ≤ e := by
      intro e he
      rcases List.mem_or_eq_of_mem_set he with hmem | rfl
      · exact hpos e hmem
      · exact add_nonneg ht0 hd0
    have hbound1 : ∀ g2 ∈ gs, g2 < (times.set g (t + d)).length := by
      intro g2 hg2
      rw [hlen1]
      exact hg g2 (List.mem_cons_of_mem g hg2)
    have hlen2 : (task + 1) + gs.length ≤ task_durations.length := by
      simp only [List.length_cons] at hlen
      omega
    obtain ⟨times2, hrun2, hl2, hp2, hs2, hmono2, hpt2⟩ :=
      ih (task + 1) (times.set g (t + d)) hbound1 hlen2 hpos1
    have hgetset : (times.set g (t + d)).getD g 0 = t + d := by
      rw [List.getD_eq_get?, List.get?_set_eq_of_lt _ hglen]
      rfl
    refine ⟨times2, ?_, ?_, hp2, ?_, ?_, ?_⟩
    · rw [hstep]
      exact hrun2
    · rw [hl2, hlen1]
    · rw [hs2]
      have hsum1 : (times.set g (t + d)).sum = times.sum + d := by
        rw [sum_set_of_lt times g (t + d) hglen]
        have hgd : times.getD g 0 = t := by
          rw [List.getD_eq_get?, htget]
          rfl
        rw [hgd]
        ring
      rw [hsum1, drop_eq_cons_of_get task_durations task d hdget]
      simp only [List.length_cons, List.take_succ_cons, List.sum_cons]
      ring
    · intro j
      have step_mono : times.getD j 0 ≤ (times.set g (t + d)).getD j 0 := by
        by_cases hj : g = j
        · subst hj
          rw [hgetset, List.getD_eq_get?, htget]
          show t ≤ t + d
          omega
        · rw [List.getD_eq_get?, List.getD_eq_get? (l := times.set g (t + d)),
            List.get?_set_ne _ _ hj]
      exact le_trans step_mono (hmono2 j)
    · intro i g2 d2 hgget hdget2
      cases i with
      | zero =>
        have hgg : some g = some g2 := hgget
        injection hgg with hgg
        subst hgg
        have hdd : task_durations.get? task = some d2 := by simpa using hdget2
        rw [hdget] at hdd
        injection hdd with hdd
        subst hdd
        have := hmono2 g
        rw [hgetset] at this
        omega
      | succ i =>
        have hgget2 : gs.get? i = some g2 := hgget
        have hdget3 : task_durations.get? ((task + 1) + i) = some d2 := by
          rw [show (task + 1) + i = task + (i + 1) by omega]
          exact hdget2
        exact hpt2 i g2 d2 hgget2 hdget3

/-- C7: for an individual whose genes lie in `[0, num_machines)` over a
non-empty vector of positive durations with at least one machine, the fitness
value is `≤ 0`, and the makespan (its negation) is at least every single task
duration and at least `total_duration / num_machines`. -/
theorem fitness_nonpositive_and_makespan_bounds (individual : List Nat)
    (task_durations : List Int) (num_machines : Nat)
    (hm : 1 ≤ num_machines) (hlen : individual.length = task_durations.length)
    (hgenes : ∀ g ∈ individual, g < num_machines)
    (hdur : ∀ d ∈ task_durations, 0 < d) (hne : task_durations ≠ []) :
    ∃ fit, fitness_function individual task_durations num_machines = .ok fit ∧
      fit ≤ 0 ∧ (∀ d ∈ task_durations, d ≤ -fit) ∧
      task_durations.sum / (num_machines : Int) ≤ -fit := by
  have hd0 : ∀ d ∈ task_durations, 0 ≤ d := fun d hd => le_of_lt (hdur d hd)
  have hbound : ∀ g ∈ individual, g < (List.replicate num_machines (0 : Int)).length := by
    simpa using hgenes
  have hpos : ∀ e ∈ List.replicate num_machines (0 : Int), 0 ≤ e := by
    intro e he
    rw [List.eq_of_mem_replicate he]
  obtain ⟨times2, hrun, hl2, hp2, hs2, hmono, hpt⟩ :=
    fitnessLoop_spec task_durations hd0 individual 0 (List.replicate num_machines 0)
      hbound (by omega) hpos
  have hl2' : times2.length = num_machines := by simpa using hl2
  obtain ⟨h0, tl, rfl⟩ : ∃ h0 tl, times2 = h0 :: tl := by
    cases times2 with
    | nil => simp at hl2'; omega
    | cons a b => exact ⟨a, b, rfl⟩
  have hmax : listMax (h0 :: tl) = some (tl.foldl max h0) := rfl
  have hub : ∀ y ∈ h0 :: tl, y ≤ tl.foldl max h0 :=
    listMax_is_ub (h0 :: tl) (tl.foldl max h0) hmax
  have hfit : fitness_function individual task_durations num_machines =
      .ok (-(tl.foldl max h0)) := by
    unfold fitness_function
    rw [hrun]
    rfl
  have hh0 : h0 ∈ h0 :: tl := List.mem_cons_self h0 tl
  have hmx0 : 0 ≤ tl.foldl max h0 := le_trans (hp2 h0 hh0) (hub h0 hh0)
  refine ⟨-(tl.foldl max h0), hfit, by omega, ?_, ?_⟩
  · intro d hdmem
    rw [neg_neg]
    obtain ⟨i, higet⟩ := List.get?_of_mem hdmem
    have hi : i < task_durations.length := by
      by_contra hlt
      rw [List.get?_eq_none.mpr (by omega)] at higet
      cases higet
    obtain ⟨g, hgget⟩ : ∃ g, individual.get? i = some g := by
      cases hq : individual.get? i with
      | none =>
        have := List.get?_eq_none.mp hq
        omega
      | some g => exact ⟨g, rfl⟩
    have hdle : d ≤ (h0 :: tl).getD g 0 := hpt i g d hgget (by simpa using higet)
    have hgm : g < num_machines := hgenes g (List.get?_mem hgget)
    obtain ⟨v, hvget⟩ : ∃ v, (h0 :: tl).get? g = some v := by
      cases hq : (h0 :: tl).get? g with
      | none =>
        have := List.get?_eq_none.mp hq
        omega
      | some v => exact ⟨v, rfl⟩
    have hvd : (h0 :: tl).getD g 0 = v := by
      rw [List.getD_eq_get?, hvget]
      rfl
    rw [hvd] at hdle
    exact le_trans hdle (hub v (List.get?_mem hvget))
  · rw [neg_neg]
    have hsum : (h0 :: tl).sum = task_durations.sum := by
      rw [hs2, List.drop_zero, hlen, List.take_length]
      simp
    have hle : task_durations.sum ≤ (num_machines : Int) * tl.foldl max h0 := by
      calc task_durations.sum = (h0 :: tl).sum := hsum.symm
      _ ≤ ((h0 :: tl).length : Int) * tl.foldl max h0 :=
        sum_le_length_mul (h0 :: tl) (tl.foldl max h0) hub
      _ = (num_machines : Int) * tl.foldl max h0 := by rw [hl2']
    calc task_durations.sum / (num_machines : Int)
        ≤ ((num_machines : Int) * tl.foldl max h0) / (num_machines : Int) :=
          Int.ediv_le_ediv (by exact_mod_cast hm) hle
    _ = tl.foldl max h0 := Int.mul_ediv_cancel_left _ (by positivity)

/-- C7 witness: the individual `[0, 1]` over durations `[2, 3]` with two
machines has fitness `-3 ≤ 0`, makespan `3` at least each duration and at
least `5 / 2`. -/
theorem fitness_nonpositive_and_makespan_bounds_witness :
    ∃ fit, fitness_function [0, 1] [2, 3] 2 = .ok fit ∧ fit ≤ 0 ∧
      (∀ d ∈ [(2 : Int), 3], d ≤ -fit) ∧ [(2 : Int), 3].sum / ((2 : Nat) : Int) ≤ -fit :=
  fitness_nonpositive_and_makespan_bounds [0, 1] [2, 3] 2 (by decide) rfl
    (by decide) (by decide) (by decide)

/-! ### C1 -/

/-- C1 (amended): in each generation the loop terminates immediately, keeping
that generation's population, exactly when the generation's best makespan is
at most the single *smallest* task duration (`min(task_durations)`);
otherwise it builds the next generation.  The comparison point is the
smallest duration, not the largest. -/
theorem gaLoop_early_stop_uses_smallest_duration (pool : Nat) (task_durations : List Int)
    (num_machines : Nat) (adjustment_probability : ℚ) (fuel generation : Nat)
    (population : List (List Nat)) (results : List String) (rng : RandStream)
    (fitness_scores : List Int) (best_fitness smallest : Int)
    (hfs : evalFitness task_durations num_machines population = .ok fitness_scores)
    (hbf : listMax fitness_scores = some best_fitness)
    (hmn : listMin task_durations = some smallest) :
    (-best_fitness ≤ smallest →
      gaLoop pool task_durations num_machines adjustment_probability (fuel + 1) generation
        population results rng =
        .ok (results ++ ["Generation " ++ toString (generation + 1) ++ ": Best Makespan = " ++
            toString (-best_fitness)] ++ ["\nOptimal scheduling found with minimum makespan!"],
          population, rng)) ∧
    (smallest < -best_fitness →
      gaLoop pool task_durations num_machines adjustment_probability (fuel + 1) generation
        population results rng =
        match buildNextGen pool population fitness_scores adjustment_probability num_machines
            [] rng with
        | .error e => .error e
        | .ok (next_generation, rng2) =>
          gaLoop pool task_durations num_machines adjustment_probability fuel (generation + 1)
            (next_generation.take pool)
            (results ++ ["Generation " ++ toString (generation + 1) ++ ": Best Makespan = " ++
              toString (-best_fitness)]) rng2) := by
  constructor
  · intro h
    simp only [gaLoop, hfs, hbf, hmn]
    rw [if_pos h]
  · intro h
    simp only [gaLoop, hfs, hbf, hmn]
    rw [if_neg (not_le.mpr h)]

/-- C1 witness: with a single unit-duration task on one machine, the first
generation's best makespan `1` is at most the smallest duration `1`, so the
loop stops at once keeping its population. -/
theorem gaLoop_early_stop_uses_smallest_duration_witness :
    gaLoop 1 [1] 1 0 1 0 [[0]] [] [] =
      .ok (["Generation 1: Best Makespan = 1",
        "\nOptimal scheduling found with minimum makespan!"], [[0]], []) := by
  have h := (gaLoop_early_stop_uses_smallest_duration 1 [1] 1 0 0 0 [[0]] [] [] [-1] (-1) 1
    (by decide) (by decide) (by decide)).1 (by decide)
  show gaLoop 1 [1] 1 0 (0 + 1) 0 [[0]] [] [] = _
  rw [h]
  decide

/-- C1 counterexample: with durations `[1, 3]` on two machines and the
assignment `[0, 1]`, the best makespan of generation 1 is `3`, which equals
the single largest task duration, yet the loop does not stop there: the trace
contains a second generation line, because the code compares the best
makespan against `min(task_durations) = 1`, not the largest duration. -/
theorem early_stop_not_largest_duration_counterexample :
    genetic_algorithm_job_scheduling 1 [1, 3] 2 2 0 [0, 1] =
      .ok ⟨["Generation 1: Best Makespan = 3", "Generation 2: Best Makespan = 3",
        "\nOptimal Schedule Found:", "Task 1 -> Machine 1", "Task 2 -> Machine 2",
        "\nMinimum Makespan: 3"], [0, 1], 3⟩ := by
  have hs1 : "Generation " ++ toString (1 : Nat) ++ ": Best Makespan = " ++ toString (3 : Int) =
      "Generation 1: Best Makespan = 3" := rfl
  have hs2 : "Generation " ++ toString (2 : Nat) ++ ": Best Makespan = " ++ toString (3 : Int) =
      "Generation 2: Best Makespan = 3" := rfl
  have hsel : selection [[0, 1]] [-3] ([] : RandStream) = .ok (([0, 1], [0, 1]), []) := by
    norm_num [selection, selectionProbs, choices2, choiceIndex, cumSumFrom, random01, drawNat]
  have hmut : mutate [0, 1] 0 2 ([] : RandStream) = .ok ([0, 1], []) := by
    norm_num [mutate, mutateLoop, random01, drawNat]
  have hcross : crossover [0, 1] [0, 1] ([] : RandStream) = .ok (([0, 1], [0, 1]), []) := by
    decide
  have hbuild : buildNextGen 1 [[0, 1]] [-3] 0 2 [] [] = .ok ([[0, 1], [0, 1]], []) := by
    rw [buildNextGen.eq_def]
    rw [dif_pos (by norm_num : ([] : List (List Nat)).length < 1)]
    rw [hsel]
    simp only [hcross, hmut, List.nil_append]
    rw [buildNextGen.eq_def]
    norm_num
  have hinit : init_population 1 2 2 [0, 1] = .ok ([[0, 1]], []) := by decide
  have hfit : evalFitness [1, 3] 2 [[0, 1]] = .ok [-3] := by decide
  have hga0 : gaLoop 1 [1, 3] 2 0 0 2 [[0, 1]]
      ["Generation 1: Best Makespan = 3", "Generation 2: Best Makespan = 3"] [] =
      .ok (["Generation 1: Best Makespan = 3", "Generation 2: Best Makespan = 3"],
        [[0, 1]], []) := by
    rfl
  have hga2 : gaLoop 1 [1, 3] 2 0 1 1 [[0, 1]] ["Generation 1: Best Makespan = 3"] [] =
      .ok (["Generation 1: Best Makespan = 3", "Generation 2: Best Makespan = 3"],
        [[0, 1]], []) := by
    show gaLoop 1 [1, 3] 2 0 (0 + 1) 1 [[0, 1]] ["Generation 1: Best Makespan = 3"] [] = _
    simp only [gaLoop, hfit]
    norm_num [listMax, listMin, hs2, hbuild, hga0]
  have hga1 : gaLoop 1 [1, 3] 2 0 2 0 [[0, 1]] [] [] =
      .ok (["Generation 1: Best Makespan = 3", "Generation 2: Best Makespan = 3"],
        [[0, 1]], []) := by
    show gaLoop 1 [1, 3] 2 0 (1 + 1) 0 [[0, 1]] [] [] = _
    simp only [gaLoop, hfit]
    norm_num [listMax, listMin, hs1, hs2, hfit, hbuild, hga2, hga0]
  have hbest : maxByKey (fun ind => fitness_function ind [1, 3] 2) [[0, 1]] = .ok [0, 1] := by
    decide
  have hfit2 : fitness_function [0, 1] [1, 3] 2 = .ok (-3) := by decide
  simp only [genetic_algorithm_job_scheduling, List.length_cons, List.length_nil]
  norm_num [hinit, hga1, hbest, hfit2]
  rfl

/-! ### C10 -/

/-- C10: every successful run's trace ends, after some prefix, with the
schedule header, then one line per task position `i` reading
`Task (i+1) -> Machine (m+1)` where `m` is the 0-based machine index at
position `i` of the returned best assignment (which itself keeps 0-based
indices), then the final makespan line. -/
theorem trace_one_based_assignment_lines
    (pool : Nat) (task_durations : List Int) (num_machines iteration_limit : Nat)
    (adjustment_probability : ℚ) (rng : RandStream) (r : GAResult)
    (hrun : genetic_algorithm_job_scheduling pool task_durations num_machines iteration_limit
      adjustment_probability rng = .ok r) :
    ∃ pre, r.results = pre ++ ["\nOptimal Schedule Found:"] ++
        r.best_individual.enum.map (fun p =>
          "Task " ++ toString (p.1 + 1) ++ " -> Machine " ++ toString (p.2 + 1)) ++
        ["\nMinimum Makespan: " ++ toString r.best_makespan] ∧
      ∀ i, (r.best_individual.enum.map (fun p =>
          "Task " ++ toString (p.1 + 1) ++ " -> Machine " ++ toString (p.2 + 1))).get? i =
        (r.best_individual.get? i).map (fun machine =>
          "Task " ++ toString (i + 1) ++ " -> Machine " ++ toString (machine + 1)) := by
  unfold genetic_algorithm_job_scheduling at hrun
  simp only [] at hrun
  cases hinit : init_population pool task_durations.length num_machines rng with
  | error e => rw [hinit] at hrun; cases hrun
  | ok p1 =>
    obtain ⟨population, rng1⟩ := p1
    rw [hinit] at hrun
    simp only [] at hrun
    cases hloop : gaLoop pool task_durations num_machines adjustment_probability
        iteration_limit 0 population [] rng1 with
    | error e => rw [hloop] at hrun; cases hrun
    | ok p2 =>
      obtain ⟨trace, final_population, rng2⟩ := p2
      rw [hloop] at hrun
      simp only [] at hrun
      cases hb : maxByKey (fun ind => fitness_function ind task_durations num_machines)
          final_population with
      | error e => rw [hb] at hrun; cases hrun
      | ok best =>
        rw [hb] at hrun
        simp only [] at hrun
        cases hf : fitness_function best task_durations num_machines with
        | error e => rw [hf] at hrun; cases hrun
        | ok bf =>
          rw [hf] at hrun
          simp only [Except.ok.injEq] at hrun
          subst hrun
          refine ⟨trace, rfl, ?_⟩
          intro i
          cases hg : List.get? best i with
          | none =>
            simp only [List.get?_map, List.enum_get?, hg]
            rfl
          | some machine =>
            simp only [List.get?_map, List.enum_get?, hg]
            rfl

/-- C10 witness: a concrete run whose single task is listed as
`Task 1 -> Machine 1` while the returned assignment holds the 0-based
machine index `0`. -/
theorem trace_one_based_assignment_lines_witness :
    ∃ pre, (GAResult.mk ["\nOptimal Schedule Found:", "Task 1 -> Machine 1",
        "\nMinimum Makespan: 4"] [0] 4).results = pre ++ ["\nOptimal Schedule Found:"] ++
        (GAResult.mk ["\nOptimal Schedule Found:", "Task 1 -> Machine 1",
          "\nMinimum Makespan: 4"] [0] 4).best_individual.enum.map (fun p =>
          "Task " ++ toString (p.1 + 1) ++ " -> Machine " ++ toString (p.2 + 1)) ++
        ["\nMinimum Makespan: " ++ toString (GAResult.mk ["\nOptimal Schedule Found:",
          "Task 1 -> Machine 1", "\nMinimum Makespan: 4"] [0] 4).best_makespan] ∧
      ∀ i, ((GAResult.mk ["\nOptimal Schedule Found:", "Task 1 -> Machine 1",
          "\nMinimum Makespan: 4"] [0] 4).best_individual.enum.map (fun p =>
          "Task " ++ toString (p.1 + 1) ++ " -> Machine " ++ toString (p.2 + 1))).get? i =
        ((GAResult.mk ["\nOptimal Schedule Found:", "Task 1 -> Machine 1",
          "\nMinimum Makespan: 4"] [0] 4).best_individual.get? i).map (fun machine =>
          "Task " ++ toString (i + 1) ++ " -> Machine " ++ toString (machine + 1)) :=
  trace_one_based_assignment_lines 1 [4] 1 0 0 [] _ (by decide)
